import Mathlib

/-!
# Verification of the jolecule structural parsers (`PdbParser` / `CifParser`)

This development shallowly embeds the two molecular-file parsers of the
repository (fixed-column PDB format and token-based mmCIF format) and proves
properties of them.  JavaScript semantics are modelled explicitly:

* JS strings are Lean `String`s; `substr`, `substring`, `split`, `trim`,
  `startsWith`, `includes` and `replace`-first are re-implemented below with
  the exact JS behaviour on in-range and out-of-range arguments.
* JS `parseFloat` / `parseInt` return `NaN` on failure and never throw; `NaN`
  is modelled as `Option.none` (floats are modelled exactly as rationals,
  which is faithful for every property proved here since no arithmetic is
  performed on parsed coordinates).
* `x.split(...)` in JS never returns an empty array, and character/substring
  access on a `String` never throws; the only throwing operation reachable in
  the source's `try` blocks is calling a method on `undefined`
  (`removeQuotes(tokens[3])` when the token list is too short), which is
  modelled with `Option`.

The structure store ("soup") is an external collaborator of the parsers; the
parts of its interface the parsers consume are modelled from the spec's §6
interface description (see `Residue` and `findResidueIndices`).
-/

namespace JS

/-- Whitespace characters recognised by lodash `_.trim` (ASCII subset, which
is all the parsers can meet on line-split input). -/
def isWS (c : Char) : Bool :=
  c = ' ' || c = '\t' || c = '\r' || c = '\n'

/-- JS `String.prototype.substr(start, len)`: out-of-range `start` yields `""`,
`len` is clamped to the end of the string. -/
def substr (s : String) (start len : Nat) : String :=
  String.mk ((s.data.drop start).take len)

/-- JS `String.prototype.substring(start)` (drop the first `start` chars). -/
def substringFrom (s : String) (start : Nat) : String :=
  String.mk (s.data.drop start)

/-- JS `s[i]` character access: `undefined` (here `none`) when out of range. -/
def charAt (s : String) (i : Nat) : Option Char :=
  (s.data.drop i).head?

/-- lodash `_.trim`: strip leading and trailing whitespace. -/
def trim (s : String) : String :=
  String.mk (((s.data.dropWhile isWS).reverse.dropWhile isWS).reverse)

/-- JS `String.prototype.startsWith`. -/
def startsWith (s pre : String) : Bool :=
  pre.data.isPrefixOf s.data

def includesAux (pat : List Char) : List Char → Bool
  | [] => pat.isPrefixOf []
  | c :: rest => pat.isPrefixOf (c :: rest) || includesAux pat rest

/-- JS `String.prototype.includes`. -/
def includes (s pat : String) : Bool :=
  includesAux pat.data s.data

def replaceFirstAux (pat repl : List Char) : List Char → List Char
  | [] => []
  | c :: rest =>
    if pat.isPrefixOf (c :: rest) then repl ++ (c :: rest).drop pat.length
    else c :: replaceFirstAux pat repl rest

/-- JS `String.prototype.replace(pat, repl)` with a (non-empty) string
pattern: replaces the first occurrence only. -/
def replaceFirst (s pat repl : String) : String :=
  String.mk (replaceFirstAux pat.data repl.data s.data)

mutual

/-- Splitting on the regex `/\r?\n/`: accumulate the current line. -/
def splitLinesAux : List Char → List Char → List String
  | [], cur => [String.mk cur.reverse]
  | '\r' :: '\n' :: rest, cur => String.mk cur.reverse :: splitLinesAux rest []
  | '\n' :: rest, cur => String.mk cur.reverse :: splitLinesAux rest []
  | c :: rest, cur => splitLinesAux rest (c :: cur)

end

/-- JS `text.split(/\r?\n/)`.  Like every JS `split`, the result is never
the empty array: `"".split(/\r?\n/) = [""]`. -/
def splitLines (s : String) : List String :=
  splitLinesAux s.data []

def isDelim (c : Char) : Bool := c = ' ' || c = ','

mutual

/-- `split(/[ ,]+/)`: inside a token. -/
def splitDelimAux : List Char → List Char → List String
  | [], cur => [String.mk cur.reverse]
  | c :: rest, cur =>
    if isDelim c then String.mk cur.reverse :: splitDelimSkip rest
    else splitDelimAux rest (c :: cur)

/-- `split(/[ ,]+/)`: just after a delimiter run began; absorb the run. -/
def splitDelimSkip : List Char → List String
  | [] => [""]
  | c :: rest => if isDelim c then splitDelimSkip rest else splitDelimAux rest [c]

end

/-- JS `line.split(/[ ,]+/)`: split on runs of spaces and commas; a leading
(trailing) delimiter produces a leading (trailing) empty token. -/
def splitDelim (s : String) : List String :=
  splitDelimAux s.data []

def digitsToNat (l : List Char) : Nat :=
  l.foldl (fun a c => a * 10 + (c.toNat - 48)) 0

def isHexDigit (c : Char) : Bool :=
  c.isDigit || ('a' ≤ c && c ≤ 'f') || ('A' ≤ c && c ≤ 'F')

def hexVal (c : Char) : Nat :=
  if c.isDigit then c.toNat - 48
  else if 'a' ≤ c && c ≤ 'f' then c.toNat - 87
  else c.toNat - 55

def hexToNat (l : List Char) : Nat :=
  l.foldl (fun a c => a * 16 + hexVal c) 0

/-- JS `parseInt(s)` (radix auto-detected): skip whitespace, optional sign,
`0x`/`0X` switches to hexadecimal, then the maximal digit prefix; no digits
gives `NaN`, modelled as `none`. -/
def parseIntJS (s : String) : Option Int :=
  let l := s.data.dropWhile isWS
  let (sgn, l1) : Int × List Char :=
    match l with
    | '-' :: r => (-1, r)
    | '+' :: r => (1, r)
    | _ => (1, l)
  match l1 with
  | '0' :: 'x' :: r =>
    let ds := r.takeWhile isHexDigit
    if ds.isEmpty then none else some (sgn * hexToNat ds)
  | '0' :: 'X' :: r =>
    let ds := r.takeWhile isHexDigit
    if ds.isEmpty then none else some (sgn * hexToNat ds)
  | _ =>
    let ds := l1.takeWhile Char.isDigit
    if ds.isEmpty then none else some (sgn * digitsToNat ds)

/-- JS `parseFloat(s)`: skip whitespace, optional sign, decimal mantissa with
optional fraction, optional exponent; no mantissa digits gives `NaN`
(`none`).  Values are exact rationals. -/
def parseFloatJS (s : String) : Option ℚ :=
  let l := s.data.dropWhile isWS
  let (sgn, l1) : ℚ × List Char :=
    match l with
    | '-' :: r => (-1, r)
    | '+' :: r => (1, r)
    | _ => (1, l)
  let ip := l1.takeWhile Char.isDigit
  let l2 := l1.dropWhile Char.isDigit
  let (fp, l3) : List Char × List Char :=
    match l2 with
    | '.' :: r => (r.takeWhile Char.isDigit, r.dropWhile Char.isDigit)
    | _ => ([], l2)
  if ip.isEmpty && fp.isEmpty then none
  else
    let mant : ℚ := (digitsToNat ip : ℚ) + (digitsToNat fp : ℚ) / ((10 : ℚ) ^ fp.length)
    let expv : Int :=
      match l3 with
      | 'e' :: '-' :: r =>
        let ds := r.takeWhile Char.isDigit
        if ds.isEmpty then 0 else -(digitsToNat ds : Int)
      | 'e' :: '+' :: r =>
        let ds := r.takeWhile Char.isDigit
        if ds.isEmpty then 0 else (digitsToNat ds : Int)
      | 'e' :: r =>
        let ds := r.takeWhile Char.isDigit
        if ds.isEmpty then 0 else (digitsToNat ds : Int)
      | 'E' :: '-' :: r =>
        let ds := r.takeWhile Char.isDigit
        if ds.isEmpty then 0 else -(digitsToNat ds : Int)
      | 'E' :: '+' :: r =>
        let ds := r.takeWhile Char.isDigit
        if ds.isEmpty then 0 else (digitsToNat ds : Int)
      | 'E' :: r =>
        let ds := r.takeWhile Char.isDigit
        if ds.isEmpty then 0 else (digitsToNat ds : Int)
      | _ => 0
    some (sgn * mant * (10 : ℚ) ^ expv)

end JS

/-! ## Shared helpers of the source file -/

def delNumAux : List Char → List Char
  | [] => []
  | c :: rest =>
    if c.isDigit then rest.dropWhile Char.isDigit else c :: delNumAux rest

/-- `function deleteNumbers (text) { return text.replace(/\d+/, '') }`:
removes the leftmost maximal run of decimal digits (the regex has no `g`
flag, so only the first match is replaced). -/
def deleteNumbers (s : String) : String :=
  String.mk (delNumAux s.data)

/-- `removeQuotes`: strips one pair of surrounding quotes when the first and
last character are both `"` or both `'` (`s.slice(1, n-1)`); note that JS
gives `''` for a one-character quote string since `slice(1, 0) = ''`. -/
def removeQuotes (s : String) : String :=
  if s.data.head? = some '"' && s.data.getLast? = some '"' then
    String.mk ((s.data.drop 1).dropLast)
  else if s.data.head? = some '\'' && s.data.getLast? = some '\'' then
    String.mk ((s.data.drop 1).dropLast)
  else s

/-! ## The structure store interface (external collaborator)

The parsers drive an externally owned store ("soup").  For the
secondary-structure pass they read residues back through a cursor; we model a
structure's residue sequence as a `List Residue`. -/

/-- Modelled from the spec: §6's residue cursor exposes `{chain, resNum, ss}`
with `ss` writable; residues are stored in insertion order. -/
structure Residue where
  chain : String
  resNum : Int
  ss : String
deriving Repr, DecidableEq

/-- `residue.resNum <= resNumEnd` where `resNumEnd` came from `parseInt` and
may be `NaN` (`none`): every comparison with `NaN` is false in JS. -/
def leEndJS (n : Int) (e : Option Int) : Bool :=
  match e with
  | none => false
  | some ev => n ≤ ev

/-- `chain === residue.chain` where `chain` may be `undefined` (`none`, for a
missing mmCIF token): strict equality with `undefined` is false. -/
def chainEqJS (c : Option String) (rc : String) : Bool :=
  c = some rc

/-- Modelled from the spec: §6 `findResidueIndices(structureIndex, chainId,
residueNumber)` "returns the residue index/indices matching the given
(chain, number) in the given structure", in index order.  A `NaN` number or
`undefined` chain matches nothing. -/
def findResidueIndices (store : List Residue) (c : Option String) (s : Option Int) :
    List Nat :=
  match c, s with
  | some cv, some sv =>
    (List.range store.length).filter fun i =>
      (store.get? i).elim false fun r => r.chain = cv && r.resNum = sv
  | _, _ => []

/-- The source's forward walk (`while (residue.resNum <= resNumEnd && chain
=== residue.chain) { residue.ss = code; residue.iRes += 1 }`) acting on the
residue suffix that starts at the walk's anchor: paint until the condition
first fails, leave the rest untouched. -/
def paintRange (code : String) (c : Option String) (e : Option Int) :
    List Residue → List Residue
  | [] => []
  | r :: rs =>
    if leEndJS r.resNum e && chainEqJS c r.chain then
      { r with ss := code } :: paintRange code c e rs
    else r :: rs

/-- One walk anchored at index `i` of the store. -/
def paintFrom (code : String) (c : Option String) (e : Option Int)
    (store : List Residue) (i : Nat) : List Residue :=
  store.take i ++ paintRange code c e (store.drop i)

/-- One HELIX/SHEET-style record applied to the store: a walk from every
index returned by `findResidueIndices` (normally zero or one). -/
def applyRangeRecord (code : String) (c : Option String) (s e : Option Int)
    (store : List Residue) : List Residue :=
  (findResidueIndices store c s).foldl (paintFrom code c e) store

/-! ## `PdbParser` -/

namespace PdbParser

/-- `isAtomLine`: `line.substr(0, 4) === 'ATOM' || line.substr(0, 6) ===
'HETATM'`. -/
def isAtomLine (line : String) : Bool :=
  JS.substr line 0 4 = "ATOM" || JS.substr line 0 6 = "HETATM"

/-- `isNmr`: some line starts with `EXPDTA` and includes `NMR`. -/
def isNmr (lines : List String) : Bool :=
  lines.any fun l => JS.startsWith l "EXPDTA" && JS.includes l "NMR"

/-- The 11-field tuple handed to `soup.addAtom`.  `NaN` numerics are `none`;
`chain` is the single character `line[21]`, `none` when the line is too
short (JS `undefined`). -/
structure PAtom where
  x : Option ℚ
  y : Option ℚ
  z : Option ℚ
  bfactor : Option ℚ
  alt : String
  atomType : String
  elem : String
  resType : String
  resNum : Option Int
  insCode : String
  chain : Option Char
deriving Repr, DecidableEq

/-- The body of the per-line branch of `parseAtomLines`.  None of the JS
operations in the source's `try` block can throw on a string input
(`substr`, `_.trim`, `parseInt`, `parseFloat` and `replace` are total and
return `''`/`NaN` rather than throwing), so the `catch` branch is
unreachable and every classified atom line reaches `addAtom`. -/
def atomOfLine (line : String) : PAtom :=
  let atomType := JS.trim (JS.substr line 12 4)
  let elem0 := deleteNumbers (JS.trim (JS.substr line 76 2))
  let elem :=
    if elem0 = "" then JS.substr (deleteNumbers (JS.trim atomType)) 0 1 else elem0
  { x := JS.parseFloatJS (JS.substr line 30 7)
    y := JS.parseFloatJS (JS.substr line 38 7)
    z := JS.parseFloatJS (JS.substr line 46 7)
    bfactor := JS.parseFloatJS (JS.substr line 60 6)
    alt := JS.trim (JS.substr line 16 1)
    atomType := atomType
    elem := elem
    resType := JS.trim (JS.substr line 17 3)
    resNum := JS.parseIntJS (JS.substr line 22 4)
    insCode := JS.substr line 26 1
    chain := JS.charAt line 21 }

/-- `parseAtomLines`: the scan loop.  `err0` is the parser's `this.error` on
entry; since the `catch` is unreachable it is returned unchanged. -/
def parseAtomLines (err0 : String) (lines : List String) : List PAtom × String :=
  lines.foldl
    (fun acc line =>
      if isAtomLine line then (acc.1 ++ [atomOfLine line], acc.2) else acc)
    ([], err0)

/-- `parseTitle`: concatenate `line.substring(10)` over all `TITLE` lines. -/
def parseTitle (lines : List String) : String :=
  lines.foldl
    (fun acc l =>
      if JS.substr l 0 5 = "TITLE" then acc ++ JS.substringFrom l 10 else acc)
    ""

/-- A model-terminator line: `line.substr(0, 3) === 'END'` (matches both
`END` and `ENDMDL`). -/
def isEndLine (line : String) : Bool :=
  JS.substr line 0 3 = "END"

/-- The model-splitting scan of `parsePdbData`: atom lines accumulate into
the current (head) model; an `END*` line closes the current model and opens
a new one, unless the file is an NMR ensemble, in which case the first
terminator stops the scan entirely. -/
def modelScan (nmr : Bool) : List String → List (List String)
  | [] => [[]]
  | l :: ls =>
    if isAtomLine l then
      match modelScan nmr ls with
      | m :: ms => (l :: m) :: ms
      | [] => [[l]]
    else if isEndLine l then
      if nmr then [[]] else [] :: modelScan nmr ls
    else modelScan nmr ls

/-- `if (models[iModel].length === 0) models.pop()`: after the scan the last
bucket is discarded when empty. -/
def popLastIfEmpty (ms : List (List String)) : List (List String) :=
  match ms.getLast? with
  | some [] => ms.dropLast
  | _ => ms

/-- `parseSecondaryStructureLines` (minus the external
`assignResidueProperties` precondition call): every `HELIX`/`SHEET` line
paints its range onto the store and raises the flag. -/
def parseSecondaryStructureLines (lines : List String)
    (store : List Residue) (flag0 : Bool) : List Residue × Bool :=
  lines.foldl
    (fun acc l =>
      if JS.substr l 0 5 = "HELIX" then
        (applyRangeRecord "H" (some (JS.substr l 19 1))
            (JS.parseIntJS (JS.substr l 21 4)) (JS.parseIntJS (JS.substr l 33 4))
            acc.1,
         true)
      else if JS.substr l 0 5 = "SHEET" then
        (applyRangeRecord "E" (some (JS.substr l 21 1))
            (JS.parseIntJS (JS.substr l 22 4)) (JS.parseIntJS (JS.substr l 33 4))
            acc.1,
         true)
      else acc)
    (store, flag0)

/-- The observable store mutations of one `parsePdbData` call: the
`(structureId, title)` pairs pushed, each model's `addAtom` tuples, the
parser's `error` field and its `parsingError` field.  (The per-model
secondary-structure pass only rewrites residue `ss` state inside the store
and is modelled separately by `parseSecondaryStructureLines`.) -/
structure ParseResult where
  parsingError : Option String
  pushes : List (String × String)
  modelAtoms : List (List PAtom)
  error : String
deriving Repr, DecidableEq

/-- `parsePdbData(pdbText, pdbId)`. -/
def parsePdbData (pdbText pdbId : String) : ParseResult :=
  let lines := JS.splitLines pdbText
  if lines.length = 0 then
    { parsingError := some "No atom lines", pushes := [], modelAtoms := [], error := "" }
  else
    let title := parseTitle lines
    let nmr := isNmr lines
    let models := popLastIfEmpty (modelScan nmr lines)
    let n := models.length
    let atomsErr :=
      models.foldl
        (fun (acc : List (List PAtom) × String) m =>
          let r := parseAtomLines acc.2 m
          (acc.1 ++ [r.1], r.2))
        ([], "")
    { parsingError := none
      pushes :=
        (List.range n).map fun i =>
          (if n > 1 then pdbId ++ "[" ++ toString (i + 1) ++ "]" else pdbId, title)
      modelAtoms := atomsErr.1
      error := atomsErr.2 }

end PdbParser

/-! ## `CifParser` -/

namespace CifParser

/-- Same line classifier as `PdbParser.isAtomLine`. -/
def isAtomLine (line : String) : Bool :=
  JS.substr line 0 4 = "ATOM" || JS.substr line 0 6 = "HETATM"

/-- The value of `this.nextResNum` and of the resolved residue number: a JS
number variable that starts as `null` and can become `NaN` (`null + 1 = 1`,
`NaN + 1 = NaN`). -/
inductive JNum where
  | null
  | nan
  | int (n : Int)
deriving Repr, DecidableEq

/-- JS `+ 1` on the numbering counter. -/
def JNum.addOne : JNum → JNum
  | .null => .int 1
  | .nan => .nan
  | .int n => .int (n + 1)

/-- The value of `lastChain`/`lastEntity`: starts as `null`; assigned from a
token which may be `undefined` (short line) or a string.  Strict equality
distinguishes all three. -/
inductive JTok where
  | null
  | undef
  | str (s : String)
deriving Repr, DecidableEq

/-- View an optional token (`none` = missing = `undefined`) as a `JTok`. -/
def JTok.ofToken : Option String → JTok
  | none => .undef
  | some s => .str s

/-- The threaded residue-numbering state `{nextResNum, lastChain,
lastEntity}` of `CifParser.parseAtomLines`. -/
structure NumState where
  nextResNum : JNum
  lastChain : JTok
  lastEntity : JTok
deriving Repr, DecidableEq

/-- Initial state: `let nextResNum = null, lastChain = null, lastEntity =
null`. -/
def initState : NumState := ⟨.null, .null, .null⟩

/-- The `addAtom` tuple produced from one mmCIF atom line.  Token-derived
string fields are `Option String` (`none` = `undefined` for a missing
token); `alt` is `''` when the token is the `.` sentinel. -/
structure CAtom where
  x : Option ℚ
  y : Option ℚ
  z : Option ℚ
  bfactor : Option ℚ
  alt : Option String
  atomType : String
  elem : Option String
  resType : Option String
  resNum : JNum
  insCode : Option String
  chain : Option String
deriving Repr, DecidableEq

/-- `parseFloat(tokens[i])`: a missing token is `undefined`, and
`parseFloat(undefined)` is `NaN`. -/
def parseFloatTok : Option String → Option ℚ
  | none => none
  | some t => JS.parseFloatJS t

/-- `parseInt(tokens[i])` as a `JNum` (`NaN` for a missing token or a
non-numeric one). -/
def parseIntTok : Option String → JNum
  | none => .nan
  | some t =>
    match JS.parseIntJS t with
    | none => .nan
    | some v => .int v

/-- The body of the source's `try` block for one atom line, given its token
list and the threaded numbering state.  The only throwing operation is
`removeQuotes(tokens[3])` when `tokens[3]` is `undefined` (reading `.length`
of `undefined` throws); in that case the result is `none`, the state is
unchanged, and the caller records the error.  Every other field access is
total in JS (`undefined` comparisons are false, `parseFloat`/`parseInt` of
`undefined` are `NaN`). -/
def parseAtomTokens (tokens : List String) (st : NumState) :
    Option (CAtom × NumState) :=
  match tokens.get? 3 with
  | none => none
  | some t3 =>
    let elem := tokens.get? 2
    let atomType := removeQuotes t3
    let alt := if tokens.get? 4 = some "." then some "" else tokens.get? 4
    let resType := tokens.get? 5
    let chain := tokens.get? 6
    let entity := tokens.get? 7
    let insCode := if tokens.get? 9 = some "?" then some "" else tokens.get? 9
    let token := tokens.get? 8
    let (resNum, st') : JNum × NumState :=
      if token = some "." then
        let isSameChainAndEntity :=
          JTok.ofToken chain = st.lastChain && JTok.ofToken entity = st.lastEntity
        if !isSameChainAndEntity || resType = some "HOH" then
          let nx := st.nextResNum.addOne
          (nx, ⟨nx, JTok.ofToken chain, JTok.ofToken entity⟩)
        else (st.nextResNum, st)
      else
        let v := parseIntTok (tokens.get? 16)
        (v, ⟨v.addOne, JTok.ofToken chain, JTok.ofToken entity⟩)
    let elem' :=
      if elem = some "" then
        some (JS.substr (deleteNumbers (JS.trim atomType)) 0 1)
      else elem
    some
      ({ x := parseFloatTok (tokens.get? 10)
         y := parseFloatTok (tokens.get? 11)
         z := parseFloatTok (tokens.get? 12)
         bfactor := parseFloatTok (tokens.get? 14)
         alt := alt
         atomType := atomType
         elem := elem'
         resType := resType
         resNum := resNum
         insCode := insCode
         chain := chain },
       st')

/-- The scan loop of `CifParser.parseAtomLines`, carrying the 0-based line
index for the error message `'line ' + iLine`. -/
def parseAtomLinesAux :
    List String → Nat → NumState → List CAtom → String →
      List CAtom × String × NumState
  | [], _, st, acc, err => (acc.reverse, err, st)
  | l :: ls, i, st, acc, err =>
    if isAtomLine l then
      match parseAtomTokens (JS.splitDelim l) st with
      | none => parseAtomLinesAux ls (i + 1) st acc ("line " ++ toString i)
      | some (a, st') => parseAtomLinesAux ls (i + 1) st' (a :: acc) err
    else parseAtomLinesAux ls (i + 1) st acc err

/-- `CifParser.parseAtomLines` started from `this.error = err0`. -/
def parseAtomLines (err0 : String) (lines : List String) :
    List CAtom × String × NumState :=
  parseAtomLinesAux lines 0 initState [] err0

/-- Apply one mmCIF helix data row: tokens 4/5/9 give chain, start, end. -/
def applyHelixRow (l : String) (store : List Residue) : List Residue :=
  let tokens := JS.splitDelim l
  applyRangeRecord "H" (tokens.get? 4)
    (match tokens.get? 5 with | none => none | some t => JS.parseIntJS t)
    (match tokens.get? 9 with | none => none | some t => JS.parseIntJS t)
    store

/-- Apply one mmCIF sheet data row: tokens 3/4/8 give chain, start, end. -/
def applySheetRow (l : String) (store : List Residue) : List Residue :=
  let tokens := JS.splitDelim l
  applyRangeRecord "E" (tokens.get? 3)
    (match tokens.get? 4 with | none => none | some t => JS.parseIntJS t)
    (match tokens.get? 8 with | none => none | some t => JS.parseIntJS t)
    store

/-- The scan loop of `parseHelixLines`: `isLoop` opens at a line starting
with `_struct_conf.pdbx_PDB_helix_id`, the loop ends at the first following
line starting with `#`, and every in-loop line not starting with
`_struct_conf` raises the flag and is applied as a data row. -/
def parseHelixAux :
    List String → Bool → List Residue → Bool → List Residue × Bool
  | [], _, store, f => (store, f)
  | l :: ls, isLoop, store, f =>
    let isLoop' := isLoop || JS.startsWith l "_struct_conf.pdbx_PDB_helix_id"
    if !isLoop' then parseHelixAux ls isLoop' store f
    else if JS.startsWith l "#" then (store, f)
    else if !(JS.startsWith l "_struct_conf") then
      parseHelixAux ls isLoop' (applyHelixRow l store) true
    else parseHelixAux ls isLoop' store f

/-- The scan loop of `parseSheetLines`: the loop opens at
`_struct_sheet_range.sheet_id` and ends at `#`; the data-row test is
`line.substr(0, 6) !== '_struct'`, which compares a string of at most six
characters with the seven-character literal and is therefore true for every
line, including the loop's own header lines. -/
def parseSheetAux :
    List String → Bool → List Residue → Bool → List Residue × Bool
  | [], _, store, f => (store, f)
  | l :: ls, isLoop, store, f =>
    let isLoop' := isLoop || JS.startsWith l "_struct_sheet_range.sheet_id"
    if !isLoop' then parseSheetAux ls isLoop' store f
    else if JS.startsWith l "#" then (store, f)
    else if !(JS.substr l 0 6 = "_struct") then
      parseSheetAux ls isLoop' (applySheetRow l store) true
    else parseSheetAux ls isLoop' store f

/-- `parseHelixLines(pdbLines)` on a given residue store, returning the
updated store and its contribution to `hasSecondaryStructure`. -/
def parseHelixLines (lines : List String) (store : List Residue) (f : Bool) :
    List Residue × Bool :=
  parseHelixAux lines false store f

/-- `parseSheetLines(pdbLines)`. -/
def parseSheetLines (lines : List String) (store : List Residue) (f : Bool) :
    List Residue × Bool :=
  parseSheetAux lines false store f

/-- `parseSecondaryStructureLines`: resets `this.hasSecondaryStructure` to
`false`, then runs the helix and sheet scans (the external
`assignResidueProperties` precondition call does not touch parser state).
`flag0` is the flag's value on entry; the source overwrites it. -/
def parseSecondaryStructureLines (lines : List String)
    (store : List Residue) (flag0 : Bool) : List Residue × Bool :=
  let _ := flag0
  let h := parseHelixLines lines store false
  parseSheetLines lines h.1 h.2

/-- `CifParser.parseTitle` scan: the source checks, for each line, first
whether the line itself is `_struct.title` with an inline value, then
whether the previous line started with `_struct.title` (two-line form). -/
def parseTitleAux : Option String → List String → String
  | _, [] => ""
  | prev, l :: ls =>
    let rest := JS.trim (JS.replaceFirst l "_struct.title" "")
    if JS.startsWith l "_struct.title" && !(rest = "") then
      removeQuotes (JS.trim rest)
    else if (prev.elim false fun p => JS.startsWith p "_struct.title") then
      removeQuotes (JS.trim l)
    else parseTitleAux (some l) ls

/-- `parseTitle(lines)`. -/
def parseTitle (lines : List String) : String :=
  parseTitleAux none lines

/-- Observable outcome of `CifParser.parsePdbData`: the structure pushed,
the `addAtom` tuples, the `error` and `parsingError` fields, the final
store, and the `hasSecondaryStructure` flag. -/
structure ParseResult where
  parsingError : Option String
  pushes : List (String × String)
  atoms : List CAtom
  error : String
  store : List Residue
  hasSecondaryStructure : Bool
deriving Repr, DecidableEq

/-- `parsePdbData(pdbText, pdbId)` run against a store holding the given
residue sequence (the store is the external soup; atoms parsed here are
appended to it by the external `addAtom`, which does not affect any field
the parser reads back). -/
def parsePdbData (pdbText pdbId : String) (store : List Residue) : ParseResult :=
  let lines := JS.splitLines pdbText
  if lines.length = 0 then
    { parsingError := some "No atom lines", pushes := [], atoms := [],
      error := "", store := store, hasSecondaryStructure := false }
  else
    let r := parseAtomLines "" lines
    let ss := parseSecondaryStructureLines lines store false
    { parsingError := none
      pushes := [(pdbId, parseTitle lines)]
      atoms := r.1
      error := r.2.1
      store := ss.1
      hasSecondaryStructure := ss.2 }

end CifParser

/-! ## Concrete sample inputs used by witnesses and counterexamples -/

/-- A fully well-formed fixed-column PDB atom record. -/
def sampleAtomLine1 : String :=
  "ATOM      1  CA  ALA A   1      11.000  12.000  13.000  1.00 20.00           C"

/-- A second well-formed PDB atom record. -/
def sampleAtomLine2 : String :=
  "ATOM      2  CB  ALA A   1      11.500  12.500  13.500  1.00 20.00           C"

/-- A well-formed PDB atom record whose explicit element field (0-indexed
columns 76–77) is `N1`, i.e. contains a digit. -/
def sampleAtomLineN1 : String :=
  "ATOM      1  CA  ALA A   1      11.000  12.000  13.000  1.00 20.00          N1"

/-- A PDB atom record carrying the characters `WXYZQ` at 0-indexed columns
12–16, so that the atom-name slices starting at column 12 and at column 13
differ. -/
def sampleAtomLineWXYZQ : String :=
  "ATOM      1 WXYZQALA A   1      11.000  12.000  13.000  1.00 20.00           C"

/-- A HELIX record for chain `A`, residues 10 through 15 (fixed columns:
chain at 19, start at 21–24, end at 33–36). -/
def sampleHelixLine : String :=
  "HELIX    1   1 SER A   10  GLY A   15  1"

/-- A residue store whose chain-A residue numbers are not monotone: 10, 3,
12. -/
def sampleStoreNonMonotone : List Residue :=
  [⟨"A", 10, ""⟩, ⟨"A", 3, ""⟩, ⟨"A", 12, ""⟩]

/-- A residue store with an in-range helix window: chain A numbers
9,10,11,16 then chain B. -/
def sampleStoreA : List Residue :=
  [⟨"A", 9, ""⟩, ⟨"A", 10, ""⟩, ⟨"A", 11, ""⟩, ⟨"A", 16, ""⟩, ⟨"B", 12, ""⟩]

/-- Well-formed mmCIF atom rows (tokens: group, id, element, name, alt,
resType, chain, entity, label-seq, insCode, x, y, z, occupancy, b-factor,
charge, auth-seq). -/
def sampleCifLine1 : String :=
  "ATOM 1 N N . ALA A 1 1 ? 11.0 12.0 13.0 1.00 20.0 ? 1"

def sampleCifLine2 : String :=
  "ATOM 2 C CA . ALA A 1 1 ? 11.0 12.0 13.0 1.00 20.0 ? 2"

/-- An mmCIF atom row whose label-seq token (index 8) is the explicit
integer `7` while its auth-seq token (index 16) is `42`. -/
def sampleCifLineExplicit : String :=
  "ATOM 6 N N . ALA B 1 7 ? 1 2 3 1.0 20 ? 42"

/-- Sentinel-numbered mmCIF rows: two chain-A non-water rows, then a
chain-B row, then a chain-B water row, all with label-seq `.`. -/
def sampleCifSentA1 : String := "ATOM 1 N N . ALA A 1 . ? 1 2 3 1.0 20 ? ."

def sampleCifSentA2 : String := "ATOM 2 C CA . ALA A 1 . ? 1 2 3 1.0 20 ? ."

def sampleCifSentB : String := "ATOM 3 N N . ALA B 1 . ? 1 2 3 1.0 20 ? ."

def sampleCifSentWater : String := "HETATM 4 O O . HOH B 1 . ? 1 2 3 1.0 20 ? ."

/-! ## Declarative restatements used by the claims

These are claim-side characterizations, written independently of the scan
loops above, to be proved equal to what the loops compute. -/

/-- The mmCIF helix loop of a file: the lines from the first line starting
with `_struct_conf.pdbx_PDB_helix_id` (inclusive) up to the next line
starting with `#` (exclusive). -/
def helixLoopRegion (lines : List String) : List String :=
  (lines.dropWhile fun l => !JS.startsWith l "_struct_conf.pdbx_PDB_helix_id").takeWhile
    fun l => !JS.startsWith l "#"

/-- The mmCIF sheet loop of a file, delimited by
`_struct_sheet_range.sheet_id` and `#`. -/
def sheetLoopRegion (lines : List String) : List String :=
  (lines.dropWhile fun l => !JS.startsWith l "_struct_sheet_range.sheet_id").takeWhile
    fun l => !JS.startsWith l "#"

/-- The helix loop contains a line not starting with `_struct_conf`. -/
def hasHelixData (lines : List String) : Bool :=
  (helixLoopRegion lines).any fun l => !JS.startsWith l "_struct_conf"

/-- The sheet loop contains a line whose first six characters are not (the
seven-character string) `_struct` — which, as the claim records, holds for
every line of a non-empty loop. -/
def hasSheetData (lines : List String) : Bool :=
  (sheetLoopRegion lines).any fun l => !(JS.substr l 0 6 = "_struct")

/-- Claim-side condition on the residue at index `k` of the store during a
forward walk for chain `c` bounded by end-number `e`: the index exists, its
chain is `c` and its number is at most `e`. -/
def walkCond (store : List Residue) (c : String) (e : Int) (k : Nat) : Prop :=
  ∃ rk, store.get? k = some rk ∧ rk.chain = c ∧ rk.resNum ≤ e

/-- The first non-digit character of `s`, as a (possibly empty) string. -/
def firstNonDigitChar (s : String) : String :=
  match (s.data.filter fun c => !c.isDigit).head? with
  | some ch => String.mk [ch]
  | none => ""

/-! ## Theorems -/

/-- C1: evaluation of both parsers on a file with exactly one malformed
atom-record line among well-formed ones.  The claim (and the spec) say the
malformed line's atom is dropped and a non-empty error naming the line index
is recorded; on the fixed-column `PdbParser` the `catch` of
`parseAtomLines` is unreachable (JS `substr`/`parseInt`/`parseFloat` never
throw on strings), so the malformed line `"ATOM"` still produces an
`addAtom` call (with `NaN` fields) and the recorded error stays empty: 3
atoms come out of 3 atom lines, not 2.  Only the token-based `CifParser`
behaves as claimed, and only for lines with fewer than four tokens: there
`removeQuotes(tokens[3])` throws on `undefined`, the atom is dropped and
`error` becomes `"line 1"`. -/
theorem c1_malformed_atom_line_eval :
    (PdbParser.parseAtomLines "" [sampleAtomLine1, "ATOM", sampleAtomLine2]).1.length = 3 ∧
    (PdbParser.parseAtomLines "" [sampleAtomLine1, "ATOM", sampleAtomLine2]).2 = "" ∧
    (CifParser.parseAtomLines "" [sampleCifLine1, "ATOM", sampleCifLine2]).1.length = 2 ∧
    (CifParser.parseAtomLines "" [sampleCifLine1, "ATOM", sampleCifLine2]).2.1 = "line 1" := by
  decide

/-- C7: evaluation of both parsers on the empty input.  The claim (and the
spec) say the distinguished "no atom lines" condition is recorded and no
structure is pushed; in JS `''.split(/\r?\n/)` is `['']`, never `[]`, so the
`lines.length === 0` guard that would set `parsingError = 'No atom lines'`
is unreachable: `PdbParser` records nothing (and happens to push nothing
because the single empty model is popped), while `CifParser` records
nothing and unconditionally pushes one structure.  The same holds for a
non-empty file with zero atom records (`"REMARK"`). -/
theorem c7_empty_input_eval :
    JS.splitLines "" = [""] ∧
    (PdbParser.parsePdbData "" "1abc").parsingError = none ∧
    (PdbParser.parsePdbData "" "1abc").pushes = [] ∧
    (CifParser.parsePdbData "" "1abc" []).parsingError = none ∧
    (CifParser.parsePdbData "" "1abc" []).pushes = [("1abc", "")] ∧
    (PdbParser.parsePdbData "REMARK" "1abc").parsingError = none ∧
    (CifParser.parsePdbData "REMARK" "1abc" []).parsingError = none ∧
    (CifParser.parsePdbData "REMARK" "1abc" []).pushes.length = 1 := by
  decide

/-- C2 counterexample: applying the HELIX record for chain `A`, residues 10
through 15, to a store whose chain-A residue numbers run 10, 3, 12 assigns
`H` to the residue numbered 3 — a residue whose number does not lie in
`[10, 15]` — because the forward walk only checks `resNum <= end`, not
`start <= resNum`.  This falsifies "exactly the residues … whose residue
numbers lie in [s, e] … carry 'H' and no other residue is assigned". -/
theorem c2_helix_range_counterexample :
    (PdbParser.parseSecondaryStructureLines [sampleHelixLine] sampleStoreNonMonotone false).1 =
      [⟨"A", 10, "H"⟩, ⟨"A", 3, "H"⟩, ⟨"A", 12, "H"⟩] ∧
    JS.substr sampleHelixLine 19 1 = "A" ∧
    JS.parseIntJS (JS.substr sampleHelixLine 21 4) = some 10 ∧
    JS.parseIntJS (JS.substr sampleHelixLine 33 4) = some 15 ∧
    ¬((10 : Int) ≤ 3) := by
  decide

/-- C3 counterexample: an mmCIF atom row whose residue-label token (index
8) is the explicit integer `7` does not adopt that integer: the source
adopts `parseInt(tokens[16])` — the auth-seq token, here `42` — and resets
the counter to `43`.  This falsifies "an atom with an explicit integer
residue token adopts that integer". -/
theorem c3_explicit_token_counterexample :
    (JS.splitDelim sampleCifLineExplicit).get? 8 = some "7" ∧
    (JS.splitDelim sampleCifLineExplicit).get? 16 = some "42" ∧
    (CifParser.parseAtomTokens (JS.splitDelim sampleCifLineExplicit)
        CifParser.initState).map (fun p => p.1.resNum) =
      some (CifParser.JNum.int 42) ∧
    CifParser.JNum.int 42 ≠ CifParser.JNum.int 7 := by
  decide

/-- C6 counterexample: a PDB atom record whose explicit element field
(columns 76–77, 0-indexed) is the non-blank string `N1` hands `N` to
`addAtom`, not `N1`: the source applies `deleteNumbers` to the explicit
field, so an explicitly present element is not preserved verbatim modulo
trimming. -/
theorem c6_element_verbatim_counterexample :
    JS.trim (JS.substr sampleAtomLineN1 76 2) = "N1" ∧
    (PdbParser.atomOfLine sampleAtomLineN1).elem = "N" ∧
    ("N" : String) ≠ "N1" := by
  decide

/-- C8 counterexample: the atom name is extracted by `line.substr(12, 4)` —
0-indexed columns 12–15 — not from 0-indexed columns 13–16 as the claim
states: on a line carrying `WXYZQ` at columns 12–16 the parser yields
`WXYZ` while the claim's columns hold `XYZQ`. -/
theorem c8_columns_counterexample :
    (PdbParser.atomOfLine sampleAtomLineWXYZQ).atomType = "WXYZ" ∧
    JS.trim (String.mk ((sampleAtomLineWXYZQ.data.drop 13).take 4)) = "XYZQ" ∧
    ("WXYZ" : String) ≠ "XYZQ" := by
  decide

theorem parseHelixAux_true_flag (ls : List String) :
    ∀ (store : List Residue) (f : Bool),
      (CifParser.parseHelixAux ls true store f).2 =
        (f || (ls.takeWhile fun l => !JS.startsWith l "#").any
            fun l => !JS.startsWith l "_struct_conf") := by
  induction ls with
  | nil => intro store f; simp [CifParser.parseHelixAux]
  | cons l ls ih =>
    intro store f
    cases h1 : JS.startsWith l "#" with
    | true => simp [CifParser.parseHelixAux, h1]
    | false =>
      cases h2 : JS.startsWith l "_struct_conf" with
      | true => simp [CifParser.parseHelixAux, h1, h2, ih]
      | false => simp [CifParser.parseHelixAux, h1, h2, ih]

theorem parseHelixAux_false_flag (ls : List String) :
    ∀ (store : List Residue) (f : Bool),
      (CifParser.parseHelixAux ls false store f).2 = (f || hasHelixData ls) := by
  induction ls with
  | nil => intro store f; simp [CifParser.parseHelixAux, hasHelixData, helixLoopRegion]
  | cons l ls ih =>
    intro store f
    cases ht : JS.startsWith l "_struct_conf.pdbx_PDB_helix_id" with
    | false =>
      simp [CifParser.parseHelixAux, ht, ih, hasHelixData, helixLoopRegion]
    | true =>
      cases h1 : JS.startsWith l "#" with
      | true =>
        simp [CifParser.parseHelixAux, ht, h1, hasHelixData, helixLoopRegion]
      | false =>
        cases h2 : JS.startsWith l "_struct_conf" with
        | true =>
          simp [CifParser.parseHelixAux, ht, h1, h2, parseHelixAux_true_flag,
            hasHelixData, helixLoopRegion]
        | false =>
          simp [CifParser.parseHelixAux, ht, h1, h2, parseHelixAux_true_flag,
            hasHelixData, helixLoopRegion]

theorem parseSheetAux_true_flag (ls : List String) :
    ∀ (store : List Residue) (f : Bool),
      (CifParser.parseSheetAux ls true store f).2 =
        (f || (ls.takeWhile fun l => !JS.startsWith l "#").any
            fun l => !(JS.substr l 0 6 = "_struct")) := by
  induction ls with
  | nil => intro store f; simp [CifParser.parseSheetAux]
  | cons l ls ih =>
    intro store f
    cases h1 : JS.startsWith l "#" with
    | true => simp [CifParser.parseSheetAux, h1]
    | false =>
      by_cases h2 : JS.substr l 0 6 = "_struct" <;>
        simp [CifParser.parseSheetAux, h1, h2, ih]

theorem parseSheetAux_false_flag (ls : List String) :
    ∀ (store : List Residue) (f : Bool),
      (CifParser.parseSheetAux ls false store f).2 = (f || hasSheetData ls) := by
  induction ls with
  | nil => intro store f; simp [CifParser.parseSheetAux, hasSheetData, sheetLoopRegion]
  | cons l ls ih =>
    intro store f
    cases ht : JS.startsWith l "_struct_sheet_range.sheet_id" with
    | false =>
      simp [CifParser.parseSheetAux, ht, ih, hasSheetData, sheetLoopRegion]
    | true =>
      cases h1 : JS.startsWith l "#" with
      | true =>
        simp [CifParser.parseSheetAux, ht, h1, hasSheetData, sheetLoopRegion]
      | false =>
        by_cases h2 : JS.substr l 0 6 = "_struct" <;>
          simp [CifParser.parseSheetAux, ht, h1, h2, parseSheetAux_true_flag,
            hasSheetData, sheetLoopRegion]

/-- C10: after `CifParser.parsePdbData`'s secondary-structure pass the
`hasSecondaryStructure` flag is true iff the helix loop (opened by a line
starting with `_struct_conf.pdbx_PDB_helix_id`, closed by the next line
starting with `#`) contains a line not starting with `_struct_conf`, or the
sheet loop (opened by `_struct_sheet_range.sheet_id`, closed by `#`)
contains a line whose first six characters differ from `_struct` (true of
every line of a non-empty loop, the seven-character comparand included).
The right-hand side does not mention the store or the incoming flag, so the
flag is set by mere textual presence of such a line — even when its residue
range matches no stored residue — and is recomputed from `false` on every
call regardless of the flag's previous value. -/
theorem c10_has_secondary_structure_iff (lines : List String)
    (store : List Residue) (flag0 : Bool) :
    (CifParser.parseSecondaryStructureLines lines store flag0).2 =
      (hasHelixData lines || hasSheetData lines) := by
  show (CifParser.parseSheetAux lines false
      (CifParser.parseHelixAux lines false store false).1
      (CifParser.parseHelixAux lines false store false).2).2 = _
  rw [parseSheetAux_false_flag, parseHelixAux_false_flag]
  simp

theorem endLine_not_atomLine {l : String} (h : PdbParser.isEndLine l = true) :
    PdbParser.isAtomLine l = false := by
  have h3 : l.data.take 3 = ['E', 'N', 'D'] := by
    have h' : JS.substr l 0 3 = "END" := by
      simpa [PdbParser.isEndLine] using h
    have hEND : ("END" : String).data = ['E', 'N', 'D'] := by decide
    simpa [JS.substr, hEND] using congrArg String.data h'
  rcases hd : l.data with _ | ⟨a, t⟩
  · rw [hd] at h3; simp at h3
  rcases t with _ | ⟨b, t⟩
  · rw [hd] at h3; simp at h3
  rcases t with _ | ⟨c, t⟩
  · rw [hd] at h3; simp at h3
  rw [hd] at h3
  simp only [List.take_succ_cons, List.take_zero] at h3
  obtain ⟨ha, hb, hc⟩ : a = 'E' ∧ b = 'N' ∧ c = 'D' := by
    simpa using h3
  subst ha hb hc
  simp [PdbParser.isAtomLine, JS.substr, hd]
  constructor
  · intro hcontra
    have := congrArg String.data hcontra
    simp [show ("ATOM" : String).data = ['A', 'T', 'O', 'M'] from by decide] at this
  · intro hcontra
    have := congrArg String.data hcontra
    simp [show ("HETATM" : String).data = ['H', 'E', 'T', 'A', 'T', 'M'] from by decide] at this

theorem modelScan_ne_nil (nmr : Bool) (ls : List String) :
    PdbParser.modelScan nmr ls ≠ [] := by
  induction ls with
  | nil => simp [PdbParser.modelScan]
  | cons l ls ih =>
    cases ha : PdbParser.isAtomLine l with
    | true =>
      simp only [PdbParser.modelScan, ha]
      cases hm : PdbParser.modelScan nmr ls with
      | nil => simp
      | cons m ms => simp
    | false =>
      cases he : PdbParser.isEndLine l with
      | true => cases nmr <;> simp [PdbParser.modelScan, ha, he]
      | false => simpa [PdbParser.modelScan, ha, he] using ih

theorem modelScan_skip (nmr : Bool) :
    ∀ (h rest : List String),
      (∀ l ∈ h, PdbParser.isAtomLine l = false ∧ PdbParser.isEndLine l = false) →
      PdbParser.modelScan nmr (h ++ rest) = PdbParser.modelScan nmr rest := by
  intro h
  induction h with
  | nil => intro rest _; simp
  | cons l h ih =>
    intro rest hh
    have h1 := (hh l (by simp)).1
    have h2 := (hh l (by simp)).2
    have := ih rest fun x hx => hh x (by simp [hx])
    simpa [PdbParser.modelScan, h1, h2] using this

theorem modelScan_block (nmr : Bool) :
    ∀ (m rest : List String) (mh : List String) (mt : List (List String)),
      (∀ l ∈ m, PdbParser.isEndLine l = false) →
      PdbParser.modelScan nmr rest = mh :: mt →
      PdbParser.modelScan nmr (m ++ rest) =
        (m.filter PdbParser.isAtomLine ++ mh) :: mt := by
  intro m
  induction m with
  | nil => intro rest mh mt _ hr; simpa using hr
  | cons l m ih =>
    intro rest mh mt hm hr
    have hend := hm l (by simp)
    have ihm := ih rest mh mt (fun x hx => hm x (by simp [hx])) hr
    cases ha : PdbParser.isAtomLine l with
    | true =>
      simp [PdbParser.modelScan, ha, ihm, List.filter_cons]
    | false =>
      simp [PdbParser.modelScan, ha, hend, ihm, List.filter_cons]

/-- C4: an NMR ensemble yields exactly one pushed structure.  For any input
whose line list splits as header `h` (no atom or terminator lines), a first
model `m1` (no terminator lines, at least one atom line), a terminator
`e1`, and an arbitrary remainder (e.g. four further MODEL/ENDMDL blocks),
where some line is an `EXPDTA` line containing `NMR`, `parsePdbData` pushes
exactly one structure, holding exactly the first model's atoms: the scan
breaks at the first terminator. -/
theorem c4_nmr_single_structure (pdbText pdbId : String)
    (h m1 rest : List String) (e1 : String)
    (hsplit : JS.splitLines pdbText = h ++ m1 ++ e1 :: rest)
    (hnmr : ∃ l ∈ h ++ m1 ++ e1 :: rest,
      JS.startsWith l "EXPDTA" = true ∧ JS.includes l "NMR" = true)
    (hh : ∀ l ∈ h, PdbParser.isAtomLine l = false ∧ PdbParser.isEndLine l = false)
    (hm : ∀ l ∈ m1, PdbParser.isEndLine l = false)
    (hmatom : ∃ l ∈ m1, PdbParser.isAtomLine l = true)
    (he : PdbParser.isEndLine e1 = true) :
    (PdbParser.parsePdbData pdbText pdbId).pushes.length = 1 ∧
    (PdbParser.parsePdbData pdbText pdbId).modelAtoms =
      [(PdbParser.parseAtomLines "" (m1.filter PdbParser.isAtomLine)).1] := by
  set L := h ++ m1 ++ e1 :: rest with hL
  have hlen : L.length ≠ 0 := by
    simp [hL]
  have hisnmr : PdbParser.isNmr L = true := by
    obtain ⟨l, hlmem, h1, h2⟩ := hnmr
    simp only [PdbParser.isNmr, List.any_eq_true]
    exact ⟨l, hlmem, by simp [h1, h2]⟩
  have hstep1 : PdbParser.modelScan true (e1 :: rest) = [[]] := by
    simp [PdbParser.modelScan, endLine_not_atomLine he, he]
  have hstep2 : PdbParser.modelScan true (m1 ++ e1 :: rest) =
      [m1.filter PdbParser.isAtomLine] := by
    simpa using modelScan_block true m1 (e1 :: rest) [] [] hm hstep1
  have hscan : PdbParser.modelScan true L = [m1.filter PdbParser.isAtomLine] := by
    rw [hL, List.append_assoc] at *
    rw [modelScan_skip true h (m1 ++ e1 :: rest) hh]
    exact hstep2
  have hfne : m1.filter PdbParser.isAtomLine ≠ [] := by
    obtain ⟨l, hlmem, hla⟩ := hmatom
    intro hcontra
    have : l ∈ m1.filter PdbParser.isAtomLine := List.mem_filter.mpr ⟨hlmem, hla⟩
    simp [hcontra] at this
  have hpop : PdbParser.popLastIfEmpty [m1.filter PdbParser.isAtomLine] =
      [m1.filter PdbParser.isAtomLine] := by
    rcases hf : m1.filter PdbParser.isAtomLine with _ | ⟨a, f⟩
    · exact absurd hf hfne
    · simp [PdbParser.popLastIfEmpty]
  rw [PdbParser.parsePdbData, hsplit]
  simp only [if_neg hlen, hisnmr, hscan, hpop]
  simp

/-- C5: a non-NMR file with three terminated models yields exactly three
pushed structures whose identifiers carry the 1-based suffixes `[1]`,
`[2]`, `[3]`, and the trailing empty model opened by the final terminator
is discarded (no fourth structure).  `h` is the header (no atom or
terminator lines), `m1 m2 m3` the three blocks (no terminator lines),
`e1 e2 e3` the terminators, and `t` the trailing lines (no atom or
terminator lines). -/
theorem c5_three_models_suffixed (pdbText pdbId : String)
    (h m1 m2 m3 t : List String) (e1 e2 e3 : String)
    (hsplit : JS.splitLines pdbText =
      h ++ m1 ++ e1 :: (m2 ++ e2 :: (m3 ++ e3 :: t)))
    (hnonmr : PdbParser.isNmr (h ++ m1 ++ e1 :: (m2 ++ e2 :: (m3 ++ e3 :: t))) = false)
    (hh : ∀ l ∈ h, PdbParser.isAtomLine l = false ∧ PdbParser.isEndLine l = false)
    (hm1 : ∀ l ∈ m1, PdbParser.isEndLine l = false)
    (hm2 : ∀ l ∈ m2, PdbParser.isEndLine l = false)
    (hm3 : ∀ l ∈ m3, PdbParser.isEndLine l = false)
    (ht : ∀ l ∈ t, PdbParser.isAtomLine l = false ∧ PdbParser.isEndLine l = false)
    (he1 : PdbParser.isEndLine e1 = true)
    (he2 : PdbParser.isEndLine e2 = true)
    (he3 : PdbParser.isEndLine e3 = true) :
    (PdbParser.parsePdbData pdbText pdbId).pushes.length = 3 ∧
    (PdbParser.parsePdbData pdbText pdbId).pushes.map Prod.fst =
      [pdbId ++ "[1]", pdbId ++ "[2]", pdbId ++ "[3]"] := by
  set L := h ++ m1 ++ e1 :: (m2 ++ e2 :: (m3 ++ e3 :: t)) with hL
  have hlen : L.length ≠ 0 := by simp [hL]
  have hscanT : PdbParser.modelScan false t = [[]] := by
    have := modelScan_skip false t [] ht
    simpa [PdbParser.modelScan] using this
  have h3 : PdbParser.modelScan false (m3 ++ e3 :: t) =
      [m3.filter PdbParser.isAtomLine, []] := by
    have hstep : PdbParser.modelScan false (e3 :: t) = [[], []] := by
      simp [PdbParser.modelScan, endLine_not_atomLine he3, he3, hscanT]
    simpa using modelScan_block false m3 (e3 :: t) [] [[]] hm3 hstep
  have h2 : PdbParser.modelScan false (m2 ++ e2 :: (m3 ++ e3 :: t)) =
      [m2.filter PdbParser.isAtomLine, m3.filter PdbParser.isAtomLine, []] := by
    have hstep : PdbParser.modelScan false (e2 :: (m3 ++ e3 :: t)) =
        [[], m3.filter PdbParser.isAtomLine, []] := by
      simp [PdbParser.modelScan, endLine_not_atomLine he2, he2, h3]
    simpa using
      modelScan_block false m2 (e2 :: (m3 ++ e3 :: t)) []
        [m3.filter PdbParser.isAtomLine, []] hm2 hstep
  have h1 : PdbParser.modelScan false (m1 ++ e1 :: (m2 ++ e2 :: (m3 ++ e3 :: t))) =
      [m1.filter PdbParser.isAtomLine, m2.filter PdbParser.isAtomLine,
        m3.filter PdbParser.isAtomLine, []] := by
    have hstep : PdbParser.modelScan false (e1 :: (m2 ++ e2 :: (m3 ++ e3 :: t))) =
        [[], m2.filter PdbParser.isAtomLine, m3.filter PdbParser.isAtomLine, []] := by
      simp [PdbParser.modelScan, endLine_not_atomLine he1, he1, h2]
    simpa using
      modelScan_block false m1 (e1 :: (m2 ++ e2 :: (m3 ++ e3 :: t))) []
        [m2.filter PdbParser.isAtomLine, m3.filter PdbParser.isAtomLine, []] hm1 hstep
  have hscan : PdbParser.modelScan false L =
      [m1.filter PdbParser.isAtomLine, m2.filter PdbParser.isAtomLine,
        m3.filter PdbParser.isAtomLine, []] := by
    rw [hL, List.append_assoc,
      modelScan_skip false h (m1 ++ e1 :: (m2 ++ e2 :: (m3 ++ e3 :: t))) hh]
    exact h1
  have hpop : PdbParser.popLastIfEmpty
      [m1.filter PdbParser.isAtomLine, m2.filter PdbParser.isAtomLine,
        m3.filter PdbParser.isAtomLine, []] =
      [m1.filter PdbParser.isAtomLine, m2.filter PdbParser.isAtomLine,
        m3.filter PdbParser.isAtomLine] := rfl
  rw [PdbParser.parsePdbData, hsplit]
  simp only [← hL] at *
  simp only [if_neg hlen, hnonmr, hscan, hpop]
  refine ⟨by simp, ?_⟩
  simp only [List.length_cons, List.length_nil]
  rw [show (List.range (0 + 1 + 1 + 1)) = [0, 1, 2] from rfl]
  simp only [List.map_cons, List.map_map, List.map_nil]
  rw [show toString (0 + 1 : Nat) = "1" from rfl, show toString (1 + 1 : Nat) = "2" from rfl,
    show toString (2 + 1 : Nat) = "3" from rfl]
  simp only [String.append_assoc]
  have h13 : ((0 : Nat) + 1 + 1 + 1 > 1) := by norm_num
  rw [if_pos h13, if_pos h13, if_pos h13]
  rfl

theorem c4_nmr_single_structure_witness :
    (PdbParser.parsePdbData
        "EXPDTA    NMR\nMODEL 1\nATOM a\nATOM b\nENDMDL\nMODEL 2\nATOM c\nENDMDL"
        "2nmr").pushes.length = 1 ∧
    (PdbParser.parsePdbData
        "EXPDTA    NMR\nMODEL 1\nATOM a\nATOM b\nENDMDL\nMODEL 2\nATOM c\nENDMDL"
        "2nmr").modelAtoms =
      [(PdbParser.parseAtomLines ""
          (["ATOM a", "ATOM b"].filter PdbParser.isAtomLine)).1] :=
  c4_nmr_single_structure
    "EXPDTA    NMR\nMODEL 1\nATOM a\nATOM b\nENDMDL\nMODEL 2\nATOM c\nENDMDL"
    "2nmr" ["EXPDTA    NMR", "MODEL 1"] ["ATOM a", "ATOM b"]
    ["MODEL 2", "ATOM c", "ENDMDL"] "ENDMDL"
    (by decide) (by decide) (by decide) (by decide) (by decide) (by decide)

theorem c5_three_models_suffixed_witness :
    (PdbParser.parsePdbData "TITLE     X\nATOM a\nEND\nATOM b\nEND\nATOM c\nEND"
        "1xyz").pushes.length = 3 ∧
    (PdbParser.parsePdbData "TITLE     X\nATOM a\nEND\nATOM b\nEND\nATOM c\nEND"
        "1xyz").pushes.map Prod.fst = ["1xyz[1]", "1xyz[2]", "1xyz[3]"] :=
  c5_three_models_suffixed "TITLE     X\nATOM a\nEND\nATOM b\nEND\nATOM c\nEND"
    "1xyz" ["TITLE     X"] ["ATOM a"] ["ATOM b"] ["ATOM c"] [] "END" "END" "END"
    (by decide) (by decide) (by decide) (by decide) (by decide) (by decide)
    (by decide) (by decide) (by decide) (by decide)

theorem dropWhile_head?_false {α} (p : α → Bool) :
    ∀ (l : List α) (c : α), (l.dropWhile p).head? = some c → p c = false := by
  intro l
  induction l with
  | nil => intro c h; simp at h
  | cons a l ih =>
    intro c h
    by_cases ha : p a = true
    · exact ih c (by simpa [List.dropWhile_cons, ha] using h)
    · have ha' : p a = false := by simpa using ha
      rw [List.dropWhile_cons, ha'] at h
      simp at h
      exact h ▸ ha'

theorem dropWhile_eq_self_of_head {α} (p : α → Bool) (l : List α)
    (h : ∀ c, l.head? = some c → p c = false) : l.dropWhile p = l := by
  cases l with
  | nil => rfl
  | cons a l => rw [List.dropWhile_cons, h a rfl]; simp

theorem dropWhile_dropWhile {α} (p : α → Bool) (l : List α) :
    (l.dropWhile p).dropWhile p = l.dropWhile p :=
  dropWhile_eq_self_of_head p _ (dropWhile_head?_false p l)

theorem getLast?_dropWhile {α} (p : α → Bool) :
    ∀ l : List α, l.dropWhile p ≠ [] → (l.dropWhile p).getLast? = l.getLast? := by
  intro l
  induction l with
  | nil => intro h; simp at h
  | cons a l ih =>
    intro hne
    by_cases ha : p a = true
    · rw [List.dropWhile_cons, if_pos ha] at hne ⊢
      rw [ih hne]
      cases l with
      | nil => rw [List.dropWhile_nil] at hne; exact absurd rfl hne
      | cons b l => rw [List.getLast?_cons_cons]
    · have ha' : p a = false := by simpa using ha
      rw [List.dropWhile_cons, ha']
      simp

theorem trim_data_idem (l : List Char) :
    (((((l.dropWhile JS.isWS).reverse.dropWhile JS.isWS).reverse).dropWhile
        JS.isWS).reverse.dropWhile JS.isWS).reverse =
      ((l.dropWhile JS.isWS).reverse.dropWhile JS.isWS).reverse := by
  have h1 : (((l.dropWhile JS.isWS).reverse.dropWhile JS.isWS).reverse).dropWhile JS.isWS
      = ((l.dropWhile JS.isWS).reverse.dropWhile JS.isWS).reverse := by
    apply dropWhile_eq_self_of_head
    intro c hc
    rw [List.head?_reverse] at hc
    by_cases hCnil : (l.dropWhile JS.isWS).reverse.dropWhile JS.isWS = []
    · rw [hCnil] at hc; simp at hc
    · rw [getLast?_dropWhile JS.isWS _ hCnil, List.getLast?_reverse] at hc
      exact dropWhile_head?_false JS.isWS l c hc
  rw [h1, List.reverse_reverse, dropWhile_dropWhile]

theorem trim_trim (s : String) : JS.trim (JS.trim s) = JS.trim s :=
  congrArg String.mk (trim_data_idem s.data)

theorem delNumAux_of_no_digit :
    ∀ l : List Char, (∀ c ∈ l, c.isDigit = false) → delNumAux l = l := by
  intro l
  induction l with
  | nil => intro _; rfl
  | cons c l ih =>
    intro h
    have hc := h c (by simp)
    rw [delNumAux, if_neg (by simp [hc])]
    rw [ih fun x hx => h x (by simp [hx])]

theorem deleteNumbers_of_no_digit {s : String}
    (h : ∀ c ∈ s.data, c.isDigit = false) : deleteNumbers s = s := by
  cases s with
  | mk d => rw [deleteNumbers, delNumAux_of_no_digit d h]

theorem head?_dropWhile_eq_head?_filter {α} (p : α → Bool) :
    ∀ l : List α, (l.dropWhile p).head? = (l.filter fun a => !(p a)).head? := by
  intro l
  induction l with
  | nil => rfl
  | cons a l ih =>
    by_cases h : p a = true
    · simpa [List.dropWhile_cons, List.filter_cons, h] using ih
    · have h' : p a = false := by simpa using h
      simp [List.dropWhile_cons, List.filter_cons, h']

theorem delNumAux_head? :
    ∀ l : List Char, (delNumAux l).head? = (l.filter fun c => !c.isDigit).head? := by
  intro l
  induction l with
  | nil => rfl
  | cons c l ih =>
    by_cases h : c.isDigit = true
    · rw [delNumAux, if_pos h, List.filter_cons]
      simp only [h, Bool.not_true, if_neg]
      simpa using head?_dropWhile_eq_head?_filter Char.isDigit l
    · have h' : c.isDigit = false := by simpa using h
      simp [delNumAux, h', List.filter_cons]

theorem substr_deleteNumbers_one (s : String) :
    JS.substr (deleteNumbers s) 0 1 = firstNonDigitChar s := by
  rw [JS.substr, deleteNumbers, firstNonDigitChar]
  rw [← delNumAux_head? s.data]
  cases hd : delNumAux s.data with
  | nil => rfl
  | cons c t => rfl

/-- C6 (as amended by the counterexample): on a PDB atom record, write `f`
for the trimmed explicit element field (columns 76–77) and `a` for the
trimmed atom name (columns 12–15).  The element handed to `addAtom` is `f`
with its first run of digits removed when that is non-empty — in particular
a digit-free, non-blank `f` is preserved verbatim modulo trimming — and
otherwise (blank `f`, or `f` consisting only of digits) it is the first
non-digit character of `a` (empty when `a` has none). -/
theorem c6_element_derivation (line f a : String)
    (hf : JS.trim (JS.substr line 76 2) = f)
    (ha : JS.trim (JS.substr line 12 4) = a) :
    ((∀ c ∈ f.data, c.isDigit = false) → f ≠ "" →
      (PdbParser.atomOfLine line).elem = f) ∧
    (deleteNumbers f ≠ "" →
      (PdbParser.atomOfLine line).elem = deleteNumbers f) ∧
    (f = "" → (PdbParser.atomOfLine line).elem = firstNonDigitChar a) ∧
    (deleteNumbers f = "" →
      (PdbParser.atomOfLine line).elem = firstNonDigitChar a) := by
  have helem : (PdbParser.atomOfLine line).elem =
      (if deleteNumbers f = "" then
        JS.substr (deleteNumbers (JS.trim a)) 0 1
      else deleteNumbers f) := by
    rw [PdbParser.atomOfLine, hf, ha]
  have hderived : JS.substr (deleteNumbers (JS.trim a)) 0 1 = firstNonDigitChar a := by
    rw [← ha, trim_trim, substr_deleteNumbers_one]
  refine ⟨?_, ?_, ?_, ?_⟩
  · intro hnd hne
    rw [helem, deleteNumbers_of_no_digit hnd, if_neg hne]
  · intro hne
    rw [helem, if_neg hne]
  · intro hblank
    have : deleteNumbers f = "" := by rw [hblank]; rfl
    rw [helem, if_pos this, hderived]
  · intro hdel
    rw [helem, if_pos hdel, hderived]

theorem c6_element_derivation_witness :
    (PdbParser.atomOfLine sampleAtomLine1).elem = "C" ∧
    (PdbParser.atomOfLine
        "ATOM      1 1HB2ALA A   1      11.000  12.000  13.000  1.00 20.00").elem =
      firstNonDigitChar "1HB2" :=
  ⟨(c6_element_derivation sampleAtomLine1 "C" "CA" (by decide) (by decide)).1
      (by decide) (by decide),
   (c6_element_derivation
        "ATOM      1 1HB2ALA A   1      11.000  12.000  13.000  1.00 20.00"
        "" "1HB2" (by decide) (by decide)).2.2.1 (by decide)⟩

/-- C8 (as amended by the counterexample): `PdbParser.parseAtomLines`
extracts its fields from these fixed 0-indexed byte columns — atom name
from columns 12–15, x/y/z from columns 30–36, 38–44 and 46–52, b-factor
from columns 60–65, residue number from columns 22–25, and the raw element
from columns 76–77 (equivalently, 1-indexed columns 13–16, 31–37, 39–45,
47–53, 61–66, 23–26 and 77–78); the element handed to `addAtom` depends on
no columns other than 12–15 and 76–77. -/
theorem c8_column_extraction (line : String) :
    (PdbParser.atomOfLine line).atomType =
      JS.trim (String.mk ((line.data.drop 12).take 4)) ∧
    (PdbParser.atomOfLine line).x =
      JS.parseFloatJS (String.mk ((line.data.drop 30).take 7)) ∧
    (PdbParser.atomOfLine line).y =
      JS.parseFloatJS (String.mk ((line.data.drop 38).take 7)) ∧
    (PdbParser.atomOfLine line).z =
      JS.parseFloatJS (String.mk ((line.data.drop 46).take 7)) ∧
    (PdbParser.atomOfLine line).bfactor =
      JS.parseFloatJS (String.mk ((line.data.drop 60).take 6)) ∧
    (PdbParser.atomOfLine line).resNum =
      JS.parseIntJS (String.mk ((line.data.drop 22).take 4)) ∧
    ∀ line₂ : String,
      (line.data.drop 12).take 4 = (line₂.data.drop 12).take 4 →
      (line.data.drop 76).take 2 = (line₂.data.drop 76).take 2 →
      (PdbParser.atomOfLine line).elem = (PdbParser.atomOfLine line₂).elem := by
  refine ⟨rfl, rfl, rfl, rfl, rfl, rfl, ?_⟩
  intro line₂ h12 h76
  have e12 : JS.substr line 12 4 = JS.substr line₂ 12 4 := congrArg String.mk h12
  have e76 : JS.substr line 76 2 = JS.substr line₂ 76 2 := congrArg String.mk h76
  rw [PdbParser.atomOfLine, PdbParser.atomOfLine, e12, e76]

theorem c8_column_extraction_witness :
    (PdbParser.atomOfLine sampleAtomLine1).elem =
      (PdbParser.atomOfLine
        "ATOM      9  CA  GLY B   7      99.000  88.000  77.000  0.50 10.00           C").elem :=
  (c8_column_extraction sampleAtomLine1).2.2.2.2.2.2
    "ATOM      9  CA  GLY B   7      99.000  88.000  77.000  0.50 10.00           C"
    (by decide) (by decide)

theorem parseAtomTokens_sentinel_same (toks : List String) (n : Int) (c en : String)
    (t3 : String) (h3 : toks.get? 3 = some t3)
    (h8 : toks.get? 8 = some ".")
    (h6 : toks.get? 6 = some c) (h7 : toks.get? 7 = some en)
    (r : String) (h5 : toks.get? 5 = some r) (hr : r ≠ "HOH") :
    (CifParser.parseAtomTokens toks ⟨.int n, .str c, .str en⟩).map
        (fun p => (p.1.resNum, p.2)) =
      some (CifParser.JNum.int n, ⟨.int n, .str c, .str en⟩) := by
  rw [CifParser.parseAtomTokens.eq_def, h3]
  simp only [List.get?_eq_getElem?] at h8 h6 h7 h5
  simp [h8, h6, h7, h5, CifParser.JTok.ofToken, hr]

theorem parseAtomLinesAux_sentinel_run (n : Int) (c en : String) :
    ∀ (run : List String) (i : Nat) (acc : List CifParser.CAtom) (err : String),
      (∀ l ∈ run, CifParser.isAtomLine l = true ∧
        (JS.splitDelim l).get? 8 = some "." ∧
        (JS.splitDelim l).get? 6 = some c ∧
        (JS.splitDelim l).get? 7 = some en ∧
        (∃ t3, (JS.splitDelim l).get? 3 = some t3) ∧
        (∃ r, (JS.splitDelim l).get? 5 = some r ∧ r ≠ "HOH")) →
      ((CifParser.parseAtomLinesAux run i ⟨.int n, .str c, .str en⟩ acc err).1.map
          CifParser.CAtom.resNum =
        acc.reverse.map CifParser.CAtom.resNum ++
          run.map fun _ => CifParser.JNum.int n) ∧
      (CifParser.parseAtomLinesAux run i ⟨.int n, .str c, .str en⟩ acc err).2.2 =
        ⟨.int n, .str c, .str en⟩ ∧
      (CifParser.parseAtomLinesAux run i ⟨.int n, .str c, .str en⟩ acc err).2.1 = err := by
  intro run
  induction run with
  | nil =>
    intro i acc err _
    exact ⟨by simp [CifParser.parseAtomLinesAux], rfl, rfl⟩
  | cons l ls ih =>
    intro i acc err hcond
    obtain ⟨hatom, h8, h6, h7, ⟨t3, h3⟩, r, h5, hr⟩ := hcond l (by simp)
    have hstep := parseAtomTokens_sentinel_same (JS.splitDelim l) n c en t3 h3 h8 h6 h7 r h5 hr
    rw [Option.map_eq_some'] at hstep
    obtain ⟨⟨atom, st'⟩, hpt, hproj⟩ := hstep
    have hres : atom.resNum = CifParser.JNum.int n := congrArg Prod.fst hproj
    have hst : st' = ⟨.int n, .str c, .str en⟩ := congrArg Prod.snd hproj
    subst hst
    have ihh := ih (i + 1) (atom :: acc) err fun x hx => hcond x (by simp [hx])
    have hred : CifParser.parseAtomLinesAux (l :: ls) i ⟨.int n, .str c, .str en⟩ acc err =
        CifParser.parseAtomLinesAux ls (i + 1) ⟨.int n, .str c, .str en⟩ (atom :: acc) err := by
      rw [CifParser.parseAtomLinesAux.eq_def]
      simp [hatom, hpt]
    rw [hred]
    refine ⟨?_, ihh.2.1, ihh.2.2⟩
    rw [ihh.1]
    simp [hres]

/-- C3 (as amended by the counterexample): the mmCIF residue-numbering
resolver behaves as claimed except that an explicit (non-sentinel) label
token does not itself supply the number — the number adopted is
`parseInt` of the separate auth-seq token at index 16, and the counter is
reset to that value plus one.  Concretely, with the numbering state
`{nextResNum = n, lastChain = c, lastEntity = en}`:
(1) a run of consecutive atom lines with sentinel label `.`, chain `c`,
entity `en` and non-water residue type all resolve to `n`, leaving the
state unchanged;
(2) a sentinel atom with a different chain `c'` resolves to `n + 1` and
updates the state;
(3) an atom whose label token is not `.` adopts the integer `v` parsed
from token 16 and resets the counter to `v + 1`;
(4) a sentinel water atom (`HOH`) resolves to `n + 1` — a fresh residue —
even when chain and entity are unchanged. -/
theorem c3_residue_numbering :
    (∀ (run : List String) (i : Nat) (err : String) (n : Int) (c en : String),
      (∀ l ∈ run, CifParser.isAtomLine l = true ∧
        (JS.splitDelim l).get? 8 = some "." ∧
        (JS.splitDelim l).get? 6 = some c ∧
        (JS.splitDelim l).get? 7 = some en ∧
        (∃ t3, (JS.splitDelim l).get? 3 = some t3) ∧
        (∃ r, (JS.splitDelim l).get? 5 = some r ∧ r ≠ "HOH")) →
      (CifParser.parseAtomLinesAux run i ⟨.int n, .str c, .str en⟩ [] err).1.map
          CifParser.CAtom.resNum = run.map (fun _ => CifParser.JNum.int n) ∧
      (CifParser.parseAtomLinesAux run i ⟨.int n, .str c, .str en⟩ [] err).2.2 =
        ⟨.int n, .str c, .str en⟩) ∧
    (∀ (toks : List String) (n : Int) (c en c' en' t3 : String),
      toks.get? 3 = some t3 → toks.get? 8 = some "." →
      toks.get? 6 = some c' → toks.get? 7 = some en' → c' ≠ c →
      (CifParser.parseAtomTokens toks ⟨.int n, .str c, .str en⟩).map
          (fun p => (p.1.resNum, p.2)) =
        some (CifParser.JNum.int (n + 1), ⟨.int (n + 1), .str c', .str en'⟩)) ∧
    (∀ (toks : List String) (n v : Int) (c en c' en' t3 tk u : String),
      toks.get? 3 = some t3 → toks.get? 8 = some tk → tk ≠ "." →
      toks.get? 6 = some c' → toks.get? 7 = some en' →
      toks.get? 16 = some u → JS.parseIntJS u = some v →
      (CifParser.parseAtomTokens toks ⟨.int n, .str c, .str en⟩).map
          (fun p => (p.1.resNum, p.2)) =
        some (CifParser.JNum.int v, ⟨.int (v + 1), .str c', .str en'⟩)) ∧
    (∀ (toks : List String) (n : Int) (c en t3 : String),
      toks.get? 3 = some t3 → toks.get? 8 = some "." →
      toks.get? 6 = some c → toks.get? 7 = some en →
      toks.get? 5 = some "HOH" →
      (CifParser.parseAtomTokens toks ⟨.int n, .str c, .str en⟩).map
          (fun p => (p.1.resNum, p.2)) =
        some (CifParser.JNum.int (n + 1), ⟨.int (n + 1), .str c, .str en⟩)) := by
  refine ⟨?_, ?_, ?_, ?_⟩
  · intro run i err n c en hcond
    have h := parseAtomLinesAux_sentinel_run n c en run i [] err hcond
    exact ⟨by simpa using h.1, h.2.1⟩
  · intro toks n c en c' en' t3 h3 h8 h6 h7 hcc
    rw [CifParser.parseAtomTokens.eq_def, h3]
    simp only [List.get?_eq_getElem?] at h8 h6 h7
    simp [h8, h6, h7, CifParser.JTok.ofToken, hcc, CifParser.JNum.addOne]
  · intro toks n v c en c' en' t3 tk u h3 h8 htk h6 h7 h16 hv
    rw [CifParser.parseAtomTokens.eq_def, h3]
    simp only [List.get?_eq_getElem?] at h8 h6 h7 h16
    simp [h8, h6, h7, h16, htk, hv, CifParser.JTok.ofToken, CifParser.parseIntTok,
      CifParser.JNum.addOne]
  · intro toks n c en t3 h3 h8 h6 h7 h5
    rw [CifParser.parseAtomTokens.eq_def, h3]
    simp only [List.get?_eq_getElem?] at h8 h6 h7 h5
    simp [h8, h6, h7, h5, CifParser.JTok.ofToken, CifParser.JNum.addOne]

theorem c3_residue_numbering_witness :
    ((CifParser.parseAtomLinesAux [sampleCifSentA1, sampleCifSentA2] 0
        ⟨.int 5, .str "A", .str "1"⟩ [] "").1.map CifParser.CAtom.resNum =
      [sampleCifSentA1, sampleCifSentA2].map (fun _ => CifParser.JNum.int 5) ∧
     (CifParser.parseAtomLinesAux [sampleCifSentA1, sampleCifSentA2] 0
        ⟨.int 5, .str "A", .str "1"⟩ [] "").2.2 = ⟨.int 5, .str "A", .str "1"⟩) ∧
    (CifParser.parseAtomTokens (JS.splitDelim sampleCifSentB)
        ⟨.int 5, .str "A", .str "1"⟩).map (fun p => (p.1.resNum, p.2)) =
      some (CifParser.JNum.int (5 + 1), ⟨.int (5 + 1), .str "B", .str "1"⟩) ∧
    (CifParser.parseAtomTokens (JS.splitDelim sampleCifLineExplicit)
        ⟨.int 5, .str "A", .str "1"⟩).map (fun p => (p.1.resNum, p.2)) =
      some (CifParser.JNum.int 42, ⟨.int (42 + 1), .str "B", .str "1"⟩) ∧
    (CifParser.parseAtomTokens (JS.splitDelim sampleCifSentWater)
        ⟨.int 6, .str "B", .str "1"⟩).map (fun p => (p.1.resNum, p.2)) =
      some (CifParser.JNum.int (6 + 1), ⟨.int (6 + 1), .str "B", .str "1"⟩) :=
  ⟨c3_residue_numbering.1 [sampleCifSentA1, sampleCifSentA2] 0 "" 5 "A" "1"
      (by
        intro l hl
        cases hl with
        | head =>
          exact ⟨by decide, by decide, by decide, by decide, ⟨"N", by decide⟩,
            "ALA", by decide, by decide⟩
        | tail _ hl2 =>
          cases hl2 with
          | head =>
            exact ⟨by decide, by decide, by decide, by decide, ⟨"CA", by decide⟩,
              "ALA", by decide, by decide⟩
          | tail _ hl3 => cases hl3),
   c3_residue_numbering.2.1 (JS.splitDelim sampleCifSentB) 5 "A" "1" "B" "1" "N"
      (by decide) (by decide) (by decide) (by decide) (by decide),
   c3_residue_numbering.2.2.1 (JS.splitDelim sampleCifLineExplicit) 5 42 "A" "1"
      "B" "1" "N" "7" "42"
      (by decide) (by decide) (by decide) (by decide) (by decide) (by decide) (by decide),
   c3_residue_numbering.2.2.2 (JS.splitDelim sampleCifSentWater) 6 "B" "1" "O"
      (by decide) (by decide) (by decide) (by decide) (by decide)⟩

theorem parseTitleAux_skip :
    ∀ (pre : List String) (prev : Option String) (rest : List String),
      (∀ l ∈ pre, JS.startsWith l "_struct.title" = false) →
      (prev = none ∨ ∃ p, prev = some p ∧ JS.startsWith p "_struct.title" = false) →
      ∃ prev₂,
        (prev₂ = none ∨ ∃ p, prev₂ = some p ∧ JS.startsWith p "_struct.title" = false) ∧
        CifParser.parseTitleAux prev (pre ++ rest) = CifParser.parseTitleAux prev₂ rest := by
  intro pre
  induction pre with
  | nil => intro prev rest _ hprev; exact ⟨prev, hprev, rfl⟩
  | cons l pre ih =>
    intro prev rest hpre hprev
    have hl := hpre l (by simp)
    have hred : CifParser.parseTitleAux prev ((l :: pre) ++ rest) =
        CifParser.parseTitleAux (some l) (pre ++ rest) := by
      rw [CifParser.parseTitleAux.eq_def]
      rcases hprev with h | ⟨p, hp, hps⟩
      · subst h; simp [hl]
      · subst hp; simp [hl, hps]
    rw [hred]
    exact ih (some l) rest (fun x hx => hpre x (by simp [hx])) (Or.inr ⟨l, rfl, hl⟩)

/-- C9: mmCIF title extraction supports both forms, first match wins.  If
the lines before the first `_struct.title` line do not start with
`_struct.title`, then: (two-line form) when that first key line is bare
(nothing but whitespace after the key) and the next line is a value line
(itself not starting with `_struct.title`), `parseTitle` returns the next
line trimmed with matching surrounding quotes stripped; (single-line form)
when the key line carries a non-empty inline remainder, `parseTitle`
returns that remainder trimmed and quote-stripped. -/
theorem c9_title_extraction :
    (∀ (pre : List String) (key val : String) (post : List String),
      (∀ l ∈ pre, JS.startsWith l "_struct.title" = false) →
      JS.startsWith key "_struct.title" = true →
      JS.trim (JS.replaceFirst key "_struct.title" "") = "" →
      JS.startsWith val "_struct.title" = false →
      CifParser.parseTitle (pre ++ key :: val :: post) =
        removeQuotes (JS.trim val)) ∧
    (∀ (pre : List String) (key : String) (post : List String) (rest' : String),
      (∀ l ∈ pre, JS.startsWith l "_struct.title" = false) →
      JS.startsWith key "_struct.title" = true →
      JS.trim (JS.replaceFirst key "_struct.title" "") = rest' →
      rest' ≠ "" →
      CifParser.parseTitle (pre ++ key :: post) =
        removeQuotes (JS.trim rest')) := by
  constructor
  · intro pre key val post hpre hkey hbare hval
    rw [CifParser.parseTitle]
    obtain ⟨prev₂, hprev₂, hskip⟩ :=
      parseTitleAux_skip pre none (key :: val :: post) hpre (Or.inl rfl)
    rw [hskip]
    have hred : CifParser.parseTitleAux prev₂ (key :: val :: post) =
        CifParser.parseTitleAux (some key) (val :: post) := by
      rw [CifParser.parseTitleAux.eq_def]
      rcases hprev₂ with h | ⟨p, hp, hps⟩
      · subst h; simp [hkey, hbare]
      · subst hp; simp [hkey, hbare, hps]
    rw [hred, CifParser.parseTitleAux.eq_def]
    simp [hval, hkey]
  · intro pre key post rest' hpre hkey hrest hne
    rw [CifParser.parseTitle]
    obtain ⟨prev₂, hprev₂, hskip⟩ :=
      parseTitleAux_skip pre none (key :: post) hpre (Or.inl rfl)
    rw [hskip, CifParser.parseTitleAux.eq_def]
    simp [hkey, hrest, hne]

theorem c9_title_extraction_witness :
    CifParser.parseTitle ["data_X", "_struct.title", "'My Protein'", "#"] =
      "My Protein" ∧
    CifParser.parseTitle ["_struct.title   'One line'", "#"] = "One line" :=
  ⟨Eq.trans
      (c9_title_extraction.1 ["data_X"] "_struct.title" "'My Protein'" ["#"]
        (by decide) (by decide) (by decide) (by decide))
      (by decide),
   Eq.trans
      (c9_title_extraction.2 [] "_struct.title   'One line'" ["#"] "'One line'"
        (by decide) (by decide) (by decide) (by decide))
      (by decide)⟩

theorem walkCond_iff (store : List Residue) (c : String) (e : Int) (k : Nat) :
    walkCond store c e k ↔
      ((store.get? k).any fun r =>
        leEndJS r.resNum (some e) && chainEqJS (some c) r.chain) = true := by
  unfold walkCond
  cases h : store.get? k with
  | none => simp [h]
  | some r =>
    simp [h, leEndJS, chainEqJS]
    constructor
    · rintro ⟨hc, hn⟩; exact ⟨hn, hc.symm⟩
    · rintro ⟨hn, hc⟩; exact ⟨hc.symm, hn⟩

theorem paintRange_get? (code : String) (c : Option String) (e : Option Int) :
    ∀ (l : List Residue) (m : Nat),
      (paintRange code c e l).get? m =
        if ∀ k, k < m + 1 →
            ((l.get? k).any fun r => leEndJS r.resNum e && chainEqJS c r.chain) = true
        then (l.get? m).map fun r => { r with ss := code }
        else l.get? m := by
  intro l
  induction l with
  | nil =>
    intro m
    rw [paintRange]
    split <;> simp
  | cons r rs ih =>
    intro m
    cases hb : (leEndJS r.resNum e && chainEqJS c r.chain) with
    | false =>
      rw [paintRange, if_neg (by simp [hb]), if_neg]
      intro hall
      have h0 := hall 0 (Nat.succ_pos m)
      simp [hb] at h0
    | true =>
      rw [paintRange, if_pos (by simp [hb])]
      cases m with
      | zero =>
        rw [if_pos]
        · simp
        · intro k hk
          interval_cases k
          simp [hb]
      | succ m =>
        simp only [List.get?_cons_succ]
        rw [ih m]
        by_cases hcond : ∀ k, k < m + 1 →
            ((rs.get? k).any fun r => leEndJS r.resNum e && chainEqJS c r.chain) = true
        · rw [if_pos hcond, if_pos]
          intro k hk
          cases k with
          | zero => simp [hb]
          | succ k => simpa using hcond k (by omega)
        · rw [if_neg hcond, if_neg]
          intro hall
          apply hcond
          intro k hk
          simpa using hall (k + 1) (by omega)

theorem paintFrom_get?_lt (code : String) (c : Option String) (e : Option Int)
    (store : List Residue) (j i : Nat) (hij : i < j) (hj : j ≤ store.length) :
    (paintFrom code c e store j).get? i = store.get? i := by
  rw [paintFrom]
  rw [List.get?_append (by simpa [List.length_take, Nat.min_eq_left hj] using hij)]
  exact List.get?_take hij

theorem paintFrom_get?_ge (code : String) (c : Option String) (e : Option Int)
    (store : List Residue) (j i : Nat) (hij : j ≤ i) (hj : j ≤ store.length) :
    (paintFrom code c e store j).get? i =
      (paintRange code c e (store.drop j)).get? (i - j) := by
  rw [paintFrom]
  rw [List.get?_append_right (by simpa [List.length_take, Nat.min_eq_left hj] using hij)]
  congr 1
  simp [List.length_take, Nat.min_eq_left hj]

/-- C2 (as amended by the counterexample): applying a single `HELIX` record
for chain `c` and range `[s, e]` whose `(c, s)` anchor resolves to the
unique residue index `j`, the residue at index `i` ends carrying `ss = "H"`
(all other fields unchanged) exactly when `j ≤ i` and every residue from
`j` through `i` has chain `c` and residue number at most `e`; every other
residue is returned exactly unchanged.  In particular the walk starts at
the anchor, halts at the first residue whose number exceeds `e` or whose
chain differs from `c` — but it also paints any residue inside that run
whose number is below `s`, so only for stores whose numbers grow
monotonically from the anchor does the painted set equal `[s, e]`. -/
theorem c2_helix_walk_characterization
    (line : String) (store : List Residue) (flag0 : Bool)
    (c : String) (s e : Int) (j i : Nat) (r₀ : Residue)
    (hhelix : JS.substr line 0 5 = "HELIX")
    (hc : JS.substr line 19 1 = c)
    (hs : JS.parseIntJS (JS.substr line 21 4) = some s)
    (he : JS.parseIntJS (JS.substr line 33 4) = some e)
    (hmatch : findResidueIndices store (some c) (some s) = [j])
    (hr : store.get? i = some r₀) :
    ((j ≤ i ∧ ∀ k, k < i + 1 → j ≤ k → walkCond store c e k) →
      (PdbParser.parseSecondaryStructureLines [line] store flag0).1.get? i =
        some { r₀ with ss := "H" }) ∧
    (¬(j ≤ i ∧ ∀ k, k < i + 1 → j ≤ k → walkCond store c e k) →
      (PdbParser.parseSecondaryStructureLines [line] store flag0).1.get? i =
        some r₀) := by
  have hred : (PdbParser.parseSecondaryStructureLines [line] store flag0).1 =
      paintFrom "H" (some c) (some e) store j := by
    rw [PdbParser.parseSecondaryStructureLines]
    simp only [List.foldl_cons, List.foldl_nil]
    rw [if_pos (by simp [hhelix])]
    rw [hc, hs, he]
    show (applyRangeRecord "H" (some c) (some s) (some e) store, true).1 = _
    rw [applyRangeRecord, hmatch]
    simp [List.foldl_cons]
  have hjlen : j < store.length := by
    have hjmem : j ∈ findResidueIndices store (some c) (some s) := by
      rw [hmatch]; simp
    rw [findResidueIndices] at hjmem
    exact List.mem_range.mp (List.mem_filter.mp hjmem).1
  constructor
  · rintro ⟨hji, hW⟩
    rw [hred, paintFrom_get?_ge "H" (some c) (some e) store j i hji (le_of_lt hjlen),
      paintRange_get?, if_pos]
    · rw [List.get?_drop, show j + (i - j) = i by omega, hr]
      rfl
    · intro k hk
      have hw := (walkCond_iff store c e (j + k)).mp (hW (j + k) (by omega) (by omega))
      rw [List.get?_drop]
      exact hw
  · intro hnW
    by_cases hij : i < j
    · rw [hred, paintFrom_get?_lt "H" (some c) (some e) store j i hij (le_of_lt hjlen)]
      exact hr
    · have hji : j ≤ i := by omega
      have hB : ¬∀ k, k < i + 1 → j ≤ k → walkCond store c e k :=
        fun hB => hnW ⟨hji, hB⟩
      push_neg at hB
      obtain ⟨k, hk1, hk2, hknot⟩ := hB
      rw [hred, paintFrom_get?_ge "H" (some c) (some e) store j i hji (le_of_lt hjlen),
        paintRange_get?, if_neg]
      · rw [List.get?_drop, show j + (i - j) = i by omega, hr]
      · intro hall
        apply hknot
        have hcd := hall (k - j) (by omega)
        rw [List.get?_drop, show j + (k - j) = k by omega] at hcd
        exact (walkCond_iff store c e k).mpr hcd

theorem c2_helix_walk_characterization_witness :
    (PdbParser.parseSecondaryStructureLines [sampleHelixLine] sampleStoreA
        false).1.get? 2 = some { chain := "A", resNum := 11, ss := "H" } :=
  (c2_helix_walk_characterization sampleHelixLine sampleStoreA false "A" 10 15 1 2
      ⟨"A", 11, ""⟩ (by decide) (by decide) (by decide) (by decide) (by decide)
      (by decide)).1
    ⟨by omega, by
      intro k hk1 hk2
      have hk : k = 1 ∨ k = 2 := by omega
      rcases hk with rfl | rfl
      · exact ⟨⟨"A", 10, ""⟩, by decide, rfl, by norm_num⟩
      · exact ⟨⟨"A", 11, ""⟩, by decide, rfl, by norm_num⟩⟩
